import Mathlib

/-!
Verification of the PTY-backed session subsystem of the multicode repository.

The development shallowly embeds the relevant program parts:
* `xtermColorToRGBA` — the color resolver of `src/components/Terminal.tsx`;
* `extractStyledText` — the compositor of `src/components/Terminal.tsx`;
* `sendKeyBytes` — the input router of `src/components/Terminal.tsx`;
* `scheduleStep` / `debounceFires` — the debounced update scheduler;
* `step` / `run` — the supervisor state machine of `pty-helper.mjs`.

JavaScript machine integers are modelled as `Int`/`Nat` with explicit
modular reductions where overflow matters; fallible lookups return
`Option`; the event-driven parts are modelled as explicit state
transition functions over event lists.
-/

namespace Multicode

/-! ## Color resolver (`src/src/components/Terminal.tsx`, `xtermColorToRGBA`) -/
/-- An RGB triple as produced by the resolver. -/
structure RGBA where
  r : Nat
  g : Nat
  b : Nat
deriving DecidableEq

/-- Modelled from the spec: `RGBA.fromInts` comes from the external
rendering library (`@opentui/core`, not part of this repository); per the
spec it simply packages the three integer channel values into an RGB
triple. -/
def RGBA.fromInts (r g b : Nat) : RGBA := ⟨r, g, b⟩

/-- xterm.js color mode flag: default color. -/
def CM_DEFAULT : Nat := 0

/-- xterm.js color mode flag: 16-color palette. -/
def CM_P16 : Nat := 0x1000000

/-- xterm.js color mode flag: 256-color palette. -/
def CM_P256 : Nat := 0x2000000

/-- xterm.js color mode flag: 24-bit RGB. -/
def CM_RGB : Nat := 0x3000000

/-- The fixed 16-entry ANSI palette of `Terminal.tsx` (`COLOR_PALETTE_16`). -/
def COLOR_PALETTE_16 : List RGBA :=
  [RGBA.fromInts 0 0 0, RGBA.fromInts 187 0 0, RGBA.fromInts 0 187 0,
   RGBA.fromInts 187 187 0, RGBA.fromInts 0 0 187, RGBA.fromInts 187 0 187,
   RGBA.fromInts 0 187 187, RGBA.fromInts 187 187 187, RGBA.fromInts 85 85 85,
   RGBA.fromInts 255 85 85, RGBA.fromInts 85 255 85, RGBA.fromInts 255 255 85,
   RGBA.fromInts 85 85 255, RGBA.fromInts 255 85 255, RGBA.fromInts 85 255 255,
   RGBA.fromInts 255 255 255]

/-- JavaScript array indexing: `a[i]` is `undefined` for a negative or
out-of-range index. -/
def jsArrayGet (l : List RGBA) (i : Int) : Option RGBA :=
  if i < 0 then none else l.get? i.toNat

/-- `xtermColorToRGBA` of `Terminal.tsx`.  The `CM_RGB` branch applies the
JavaScript 32-bit operators `>>` and `& 0xff`; on the (nonnegative
low-24-bit) values involved these agree with taking the representative
modulo `2 ^ 32` and extracting base-256 digits, which is how the branch is
written here. -/
def xtermColorToRGBA (color : Int) (mode : Nat) : Option RGBA :=
  if mode = CM_DEFAULT then
    none
  else if mode = CM_P16 then
    jsArrayGet COLOR_PALETTE_16 color
  else if mode = CM_P256 then
    if color < 16 then
      jsArrayGet COLOR_PALETTE_16 color
    else if color < 232 then
      let n := color.toNat - 16
      some (RGBA.fromInts (n / 36 * 51) (n % 36 / 6 * 51) (n % 6 * 51))
    else
      let gray := (color.toNat - 232) * 10 + 8
      some (RGBA.fromInts gray gray gray)
  else if mode = CM_RGB then
    let u := (color % (2 ^ 32)).toNat
    some (RGBA.fromInts (u / 2 ^ 16 % 256) (u / 2 ^ 8 % 256) (u % 256))
  else
    none

/-! ## Input router (`src/src/components/Terminal.tsx`, `sendKey`) -/
/-- The key event shape received by `sendKey`. -/
structure KeyEvent where
  name : String
  sequence : Option String
  ctrl : Bool
  meta : Bool
deriving DecidableEq

/-- The bytes `sendKey` writes to the child's stdin for one key event,
given a live handle: the branch structure and order follow the source.
The final branch models the JavaScript truthiness test
`key.sequence && !key.ctrl && !key.meta`; the result is the string of
bytes written (`""` when nothing is written). -/
def sendKeyBytes (k : KeyEvent) : String :=
  if k.ctrl = true ∧ k.name = "c" then "\x03"
  else if k.ctrl = true ∧ k.name = "d" then "\x04"
  else if k.name = "return" then "\r"
  else if k.name = "backspace" then "\x7f"
  else if k.name = "up" then "\x1b[A"
  else if k.name = "down" then "\x1b[B"
  else if k.name = "left" then "\x1b[D"
  else if k.name = "right" then "\x1b[C"
  else if k.name = "escape" then "\x1b"
  else
    match k.sequence with
    | some s => if s ≠ "" ∧ k.ctrl = false ∧ k.meta = false then s else ""
    | none => ""

/-- The input-router mapping exactly as the claim words it, in the claim's
precedence order (arrows listed up/down/right/left, then Escape, then the
raw-sequence fallback guarded only by presence and the modifier flags). -/
def inputRouterSpec (k : KeyEvent) : String :=
  if k.ctrl = true ∧ k.name = "c" then "\x03"
  else if k.ctrl = true ∧ k.name = "d" then "\x04"
  else if k.name = "return" then "\r"
  else if k.name = "backspace" then "\x7f"
  else if k.name = "up" then "\x1b[A"
  else if k.name = "down" then "\x1b[B"
  else if k.name = "right" then "\x1b[C"
  else if k.name = "left" then "\x1b[D"
  else if k.name = "escape" then "\x1b"
  else if k.sequence.isSome ∧ k.ctrl = false ∧ k.meta = false then k.sequence.getD ""
  else ""

/-! ## Writes to a dead handle (`Terminal.tsx`, `sendKey` guard and the
`proc.on exit` handler) -/
/-- The component's handle on the helper process: `processRef.current`,
`none` once the process has exited (the exit handler clears it) or before
spawn. -/
def ProcessHandle := Option Unit

/-- The `exit` listener of `Terminal.tsx`: it clears `processRef.current`,
leaving a dead handle. -/
def onExitClearHandle (_h : ProcessHandle) : ProcessHandle := none

/-- `sendKey` including its leading guard
`if (!processRef.current?.stdin) return;`: the result is the unchanged
handle paired with the bytes written to the child's stdin. -/
def writeInput (h : ProcessHandle) (k : KeyEvent) : ProcessHandle × String :=
  match h with
  | none => (none, "")
  | some u => (some u, sendKeyBytes k)

/-! ## Process supervisor (`src/pty-helper.mjs`) -/
/-- JavaScript `Array.prototype.indexOf`: index of the first occurrence,
`-1` when absent. -/
def jsIndexOf : List String → String → Int
  | [], _ => -1
  | a :: rest, s =>
    if a = s then 0
    else
      let r := jsIndexOf rest s
      if r < 0 then -1 else r + 1

/-- JavaScript array indexing on a string array (`undefined` when negative
or out of range). -/
def jsGetAt (l : List String) (i : Int) : Option String :=
  if i < 0 then none else l.get? i.toNat

/-- JavaScript truthiness of a possibly-`undefined` string (`undefined`
and `""` are falsy). -/
def jsTruthy (o : Option String) : Bool :=
  match o with
  | none => false
  | some s => !(s == "")

/-- The helper's immutable configuration: working directory and command
arguments (`cwd` and `cmdArgs = args.slice(2)` of `pty-helper.mjs`). -/
structure PtyConfig where
  cwd : String
  cmdArgs : List String
deriving DecidableEq

/-- `cmdArgs.indexOf('--resume')`. -/
def resumeIndex (cfg : PtyConfig) : Int := jsIndexOf cfg.cmdArgs "--resume"

/-- `cmdArgs.indexOf('--session-id')`. -/
def sessionIdIndex (cfg : PtyConfig) : Int := jsIndexOf cfg.cmdArgs "--session-id"

/-- `originalSessionId` of `pty-helper.mjs`: the argument following
`--resume`, else the one following `--session-id`, else `undefined`. -/
def originalSessionId (cfg : PtyConfig) : Option String :=
  if resumeIndex cfg ≥ 0 then jsGetAt cfg.cmdArgs (resumeIndex cfg + 1)
  else if sessionIdIndex cfg ≥ 0 then jsGetAt cfg.cmdArgs (sessionIdIndex cfg + 1)
  else none

/-- Substring containment, modelling `String.prototype.includes`. -/
def strIncludes (hay needle : String) : Bool :=
  (List.range (hay.data.length + 1)).any (fun i => needle.data.isPrefixOf (hay.data.drop i))

/-- The "session not found" signature test of the `onExit` handler:
`outputBuffer.includes('No conversation found') ||
 (outputBuffer.includes('Session ID') && outputBuffer.includes('not found'))`. -/
def hasSignature (buf : String) : Bool :=
  strIncludes buf "No conversation found" ||
    (strIncludes buf "Session ID" && strIncludes buf "not found")

/-- The record written to the session-update file
(`~/.multicode/session-update.json`) on a retry. -/
structure SessionMarker where
  oldSessionId : String
  newSessionId : String
  cwd : String
  timestamp : Nat
deriving DecidableEq

/-- The helper's mutable state: the module-level variables
(`outputBuffer`, `startTime`, `hasRetried`), the argument list of the
currently running child, plus the observable history — chunks written to
the helper's stdout, marker records written to the session-update file,
how many times the child was restarted, and the forwarded exit status once
`process.exit` has run. -/
structure HelperState where
  outputBuffer : String
  startTime : Nat
  hasRetried : Bool
  currentArgs : List String
  stdout : List String
  markers : List SessionMarker
  restarts : Nat
  exited : Option Int
deriving DecidableEq

/-- The state right after the initial `startPty(cmdArgs, originalSessionId)`
call, with process start at time 0. -/
def initState (cfg : PtyConfig) : HelperState :=
  { outputBuffer := "", startTime := 0, hasRetried := false,
    currentArgs := cfg.cmdArgs, stdout := [], markers := [], restarts := 0,
    exited := none }

/-- An event delivered to the helper: a PTY output chunk or a PTY exit,
each stamped with the `Date.now()` value at delivery.  The exit event also
carries the `randomUUID()` value that a retry would draw. -/
inductive PtyEvent where
  | onData (t : Nat) (d : String)
  | onExit (t : Nat) (exitCode : Int) (freshId : String)
deriving DecidableEq

/-- One step of the helper: the `onData` and `onExit` handlers of
`startPty`.  After `process.exit` has run (`exited` set) no further
handler runs. -/
def step (cfg : PtyConfig) (s : HelperState) (e : PtyEvent) : HelperState :=
  if s.exited.isSome then s
  else
    match e with
    | .onData t d =>
      if t - s.startTime < 2000 then
        let s1 := { s with outputBuffer := s.outputBuffer ++ d }
        if s1.hasRetried = false ∧ jsTruthy (originalSessionId cfg) = true ∧
            resumeIndex cfg ≥ 0 then
          s1
        else { s1 with stdout := s1.stdout ++ [d] }
      else { s with stdout := s.stdout ++ [d] }
    | .onExit t code fresh =>
      if code ≠ 0 ∧ t - s.startTime < 2000 ∧ s.hasRetried = false ∧
          jsTruthy (originalSessionId cfg) = true then
        if hasSignature s.outputBuffer then
          { s with hasRetried := true, startTime := t, outputBuffer := "",
                   markers := s.markers ++
                     [{ oldSessionId := (originalSessionId cfg).getD "",
                        newSessionId := fresh, cwd := cfg.cwd, timestamp := t }],
                   currentArgs := ["--session-id", fresh],
                   restarts := s.restarts + 1 }
        else { s with exited := some code }
      else { s with exited := some code }

/-- The helper run on a list of events from its initial state. -/
def run (cfg : PtyConfig) (evs : List PtyEvent) : HelperState :=
  evs.foldl (step cfg) (initState cfg)

/-- The state produced by the retry branch of the `onExit` handler. -/
def retryState (cfg : PtyConfig) (s : HelperState) (t : Nat) (fresh : String) :
    HelperState :=
  { s with hasRetried := true, startTime := t, outputBuffer := "",
           markers := s.markers ++
             [{ oldSessionId := (originalSessionId cfg).getD "",
                newSessionId := fresh, cwd := cfg.cwd, timestamp := t }],
           currentArgs := ["--session-id", fresh],
           restarts := s.restarts + 1 }

/-- A resume-mode configuration used by the concrete witnesses. -/
def cfgResume : PtyConfig := { cwd := "/work", cmdArgs := ["--resume", "abc123"] }

/-- A state whose detection buffer holds the failure signature. -/
def sFail : HelperState := { initState cfgResume with outputBuffer := "No conversation found" }

/-- The single-retry invariant carried through every helper step. -/
def RetryInv (s : HelperState) : Prop :=
  (s.hasRetried = false → s.restarts = 0 ∧ s.markers = []) ∧
    s.restarts ≤ 1 ∧ s.markers.length ≤ 1

/-- A state in which the retry has already happened and the failure
signature is buffered again. -/
def sRetried : HelperState :=
  { initState cfgResume with hasRetried := true, outputBuffer := "No conversation found" }

/-- A resume-mode configuration with an unrelated extra flag. -/
def cfgVerbose : PtyConfig := { cwd := "/w", cmdArgs := ["--verbose", "--resume", "abc"] }

/-- A failing state for `cfgVerbose`. -/
def sVerboseFail : HelperState := { initState cfgVerbose with outputBuffer := "No conversation found" }

/-! ## Update scheduler (`Terminal.tsx`, `scheduleUpdate`) -/
/-- One `scheduleUpdate()` call at time `t`: `clearTimeout` cancels
whatever timer is pending (`pendingUpdate`), and `setTimeout(..., 16)`
leaves the single new timer due at `t + 16`. -/
def scheduleStep (_pending : Option Nat) (t : Nat) : Option Nat := some (t + 16)

/-- The fire times of `updateDisplay` produced by a monotone list of
`scheduleUpdate()` call times: a timer armed at `t` fires at `t + 16`
unless another call arrives strictly before that deadline, in which case
the timer is cancelled and replaced. -/
def debounceFires : List Nat → List Nat
  | [] => []
  | [t] => [t + 16]
  | t :: t2 :: rest =>
    if t2 < t + 16 then debounceFires (t2 :: rest)
    else (t + 16) :: debounceFires (t2 :: rest)

/-! ## Compositor (`Terminal.tsx`, `extractStyledText`) -/
/-- One cell of the xterm screen buffer, as read through the
`line.getCell(x)` accessors used by `extractStyledText`: the cell's
characters, its display width, the raw foreground/background color values
and color modes, and the six attribute flags. -/
structure Cell where
  chars : String
  width : Nat
  fgColor : Int
  bgColor : Int
  fgMode : Nat
  bgMode : Nat
  bold : Bool
  dim : Bool
  italic : Bool
  underline : Bool
  inverse : Bool
  strikethrough : Bool
deriving DecidableEq

/-- A default-styled cell, convenient for concrete buffers. -/
def plainCell (text : String) : Cell :=
  { chars := text, width := 1, fgColor := 0, bgColor := 0, fgMode := 0,
    bgMode := 0, bold := false, dim := false, italic := false,
    underline := false, inverse := false, strikethrough := false }

/-- Modelled from the spec: `createTextAttributes` comes from the external
rendering library (`@opentui/core`, not part of this repository); per the
spec it packs the six boolean flags into an attribute bitmask, one
distinct bit per flag. -/
def createTextAttributes (bold dim italic underline inverse strikethrough : Bool) : Nat :=
  (if bold then 1 else 0) + (if dim then 2 else 0) + (if italic then 4 else 0) +
    (if underline then 8 else 0) + (if inverse then 16 else 0) +
    (if strikethrough then 32 else 0)

/-- The attribute bitmask of a cell, as computed in `extractStyledText`. -/
def cellAttrs (c : Cell) : Nat :=
  createTextAttributes c.bold c.dim c.italic c.underline c.inverse c.strikethrough

/-- A styled run (`TextChunk`): text plus optional foreground, optional
background and optional attribute bitmask (the source stores
`currentAttrs || undefined`, so a zero bitmask is stored as absent). -/
structure TextChunk where
  text : String
  fg : Option RGBA
  bg : Option RGBA
  attributes : Option Nat
deriving DecidableEq

/-- The style triple of a run, the quantity claim C4 compares. -/
def styleOf (c : TextChunk) : Option RGBA × Option RGBA × Option Nat :=
  (c.fg, c.bg, c.attributes)

/-- `currentAttrs || undefined` of the source: a zero bitmask is stored as
absent. -/
def stAttr (a : Nat) : Option Nat := if a = 0 then none else some a

/-- Build the chunk pushed by `extractStyledText`. -/
def mkChunk (text : String) (fg bg : Option RGBA) (attrs : Nat) : TextChunk :=
  { text := text, fg := fg, bg := bg, attributes := stAttr attrs }

/-- JavaScript `String.prototype.trimEnd`. -/
def jsTrimEnd (s : String) : String :=
  String.mk (List.rdropWhile Char.isWhitespace s.data)

/-- JavaScript `String.prototype.trim`: whitespace stripped from both
ends. -/
def jsTrim (s : String) : String :=
  String.mk (List.rdropWhile Char.isWhitespace (s.data.dropWhile Char.isWhitespace))

/-- `cell.getChars() || " "` — an empty cell renders as a space. -/
def cellChar (c : Cell) : String := if c.chars = "" then " " else c.chars

/-- A line of the screen buffer: `line.getCell(x)` may be `undefined`. -/
abbrev Line := List (Option Cell)

/-- The screen buffer: `buffer.getLine(y)` may be `undefined`. -/
abbrev Screen := List (Option Line)

/-- `buffer.getLine(y)`. -/
def getLine (b : Screen) (y : Nat) : Option Line := (b.get? y).bind id

/-- The cells visited by the inner loop `for x in [0, cols)`. -/
def rowCells (line : Line) (cols : Nat) : List (Option Cell) :=
  (List.range cols).map fun x => (line.get? x).bind id

/-- The resolved foreground of a cell, `xtermColorToRGBA(fgColor, fgMode)`. -/
def cellFg (c : Cell) : Option RGBA := xtermColorToRGBA c.fgColor c.fgMode

/-- The resolved background of a cell, `xtermColorToRGBA(bgColor, bgMode)`. -/
def cellBg (c : Cell) : Option RGBA := xtermColorToRGBA c.bgColor c.bgMode

/-- The inner column loop of `extractStyledText`, carrying the
`currentText` / `currentFg` / `currentBg` / `currentAttrs` accumulator:
missing cells and zero-width continuation cells are skipped; a style
change with nonempty accumulated text flushes the run; the final run of
the row is flushed with trailing whitespace trimmed. -/
def rowGo : List (Option Cell) → String → Option RGBA → Option RGBA → Nat → List TextChunk
  | [], text, fg, bg, attrs =>
    if text = "" then [] else [mkChunk (jsTrimEnd text) fg bg attrs]
  | none :: rest, text, fg, bg, attrs => rowGo rest text fg bg attrs
  | some cell :: rest, text, fg, bg, attrs =>
    if cell.width = 0 then rowGo rest text fg bg attrs
    else if (cellFg cell ≠ fg ∨ cellBg cell ≠ bg ∨ cellAttrs cell ≠ attrs) ∧ text ≠ "" then
      mkChunk text fg bg attrs ::
        rowGo rest (cellChar cell) (cellFg cell) (cellBg cell) (cellAttrs cell)
    else rowGo rest (text ++ cellChar cell) (cellFg cell) (cellBg cell) (cellAttrs cell)

/-- The unstyled newline separator chunk pushed between rows. -/
def newlineChunk : TextChunk := { text := "\n", fg := none, bg := none, attributes := none }

/-- The outer row loop of `extractStyledText` over the listed row indices:
a missing line is skipped entirely; otherwise the row's runs are emitted
followed by a newline chunk for every row but the last. -/
def extractRows (b : Screen) (cols rows : Nat) : List Nat → List TextChunk
  | [] => []
  | y :: ys =>
    (match getLine b y with
     | none => []
     | some line =>
       rowGo (rowCells line cols) "" none none 0 ++
         (if y < rows - 1 then [newlineChunk] else [])) ++
      extractRows b cols rows ys

/-- The trailing-pop condition of `extractStyledText`:
`last.text === "\n" || last.text.trim() === ""`. -/
def isTrailingBlank (c : TextChunk) : Bool := c.text == "\n" || jsTrim c.text == ""

/-- `extractStyledText`: walk all rows, then pop trailing newline or
blank runs. -/
def extractStyledText (b : Screen) (cols rows : Nat) : List TextChunk :=
  List.rdropWhile isTrailingBlank (extractRows b cols rows (List.range rows))

/-- A two-row, one-column screen holding unstyled "a" and "b". -/
def demoScreen : Screen :=
  [some [some (plainCell "a")], some [some (plainCell "b")]]

/-- Adjacent-run compatibility in the full output: either one of the two
runs is the unstyled newline separator, or the styles differ. -/
def sepOk (x y : TextChunk) : Prop :=
  x.text = "\n" ∨ y.text = "\n" ∨ styleOf x ≠ styleOf y

/-! ## Theorems -/

/-- Low bits do not collide with a left shift: `x <<< k ||| y` is plain
addition when `y` fits in `k` bits. -/
theorem shiftLeft_lor_eq_add (x y k : Nat) (hy : y < 2 ^ k) :
    x <<< k ||| y = x * 2 ^ k + y := by
  rw [Nat.shiftLeft_eq, Nat.mul_comm x (2 ^ k), ← Nat.mul_add_lt_is_or hy x,
    Nat.mul_comm (2 ^ k) x]

/-- C9: for every RGB triple with each channel in 0..255, resolving the
packed integer `(r <<< 16) ||| (g <<< 8) ||| b` under TrueColor mode
(`CM_RGB`) returns exactly the original triple: packing then resolving is
the identity on 24-bit RGB values. -/
theorem trueColor_roundtrip (r g b : Nat) (hr : r < 256) (hg : g < 256) (hb : b < 256) :
    xtermColorToRGBA ((r <<< 16 ||| g <<< 8 ||| b : Nat) : Int) CM_RGB =
      some (RGBA.fromInts r g b) := by
  have h8 : g <<< 8 ||| b = g * 256 + b := by
    have := shiftLeft_lor_eq_add g b 8 (by omega)
    simpa using this
  have h16 : r <<< 16 ||| (g * 256 + b) = r * 65536 + (g * 256 + b) := by
    have := shiftLeft_lor_eq_add r (g * 256 + b) 16 (by norm_num; omega)
    simpa using this
  rw [Nat.lor_assoc, h8, h16]
  have hN : ((((r : Int) * 65536 + ((g : Int) * 256 + (b : Int)))) % 4294967296).toNat
      = r * 65536 + (g * 256 + b) := by
    have hcast : ((r : Int) * 65536 + ((g : Int) * 256 + (b : Int)))
        = ((r * 65536 + (g * 256 + b) : Nat) : Int) := by
      push_cast
      ring
    rw [hcast, Int.emod_eq_of_lt (Int.natCast_nonneg _) (by exact_mod_cast (by omega :
      (r * 65536 + (g * 256 + b) : Nat) < 4294967296))]
    exact Int.toNat_natCast _
  simp only [xtermColorToRGBA, CM_RGB, CM_DEFAULT, CM_P16, CM_P256]
  norm_num
  rw [hN]
  simp only [RGBA.fromInts, RGBA.mk.injEq]
  refine ⟨by omega, by omega, by omega⟩

/-- Witness for C9 at the concrete triple (17, 34, 51). -/
theorem trueColor_roundtrip_witness :
    xtermColorToRGBA ((17 <<< 16 ||| 34 <<< 8 ||| 51 : Nat) : Int) CM_RGB =
      some (RGBA.fromInts 17 34 51) :=
  trueColor_roundtrip 17 34 51 (by decide) (by decide) (by decide)

/-- C10: the resolver is total and returns "no color" on out-of-palette
indices — any index outside 0..15 under `CM_P16`, and any negative index
under `CM_P256`, resolves to `none` rather than an RGB value. -/
theorem resolve_out_of_range_none (c : Int) :
    ((c < 0 ∨ 16 ≤ c) → xtermColorToRGBA c CM_P16 = none) ∧
    (c < 0 → xtermColorToRGBA c CM_P256 = none) := by
  have hlen : COLOR_PALETTE_16.length = 16 := by decide
  constructor
  · intro h
    simp only [xtermColorToRGBA, CM_P16, CM_DEFAULT]
    norm_num
    rcases h with h | h
    · simp [jsArrayGet, h]
    · have hc : ¬ c < 0 := by omega
      have h16 : (16 : Nat) ≤ c.toNat := by omega
      simp only [jsArrayGet, hc, if_false]
      rw [List.get?_eq_none]
      omega
  · intro h
    simp only [xtermColorToRGBA, CM_P256, CM_DEFAULT, CM_P16]
    norm_num
    have hc : c < 16 := by omega
    simp [hc, jsArrayGet, h]

/-- Witness for C10 at the concrete indices -3 (both modes) and 99
(16-color mode). -/
theorem resolve_out_of_range_none_witness :
    xtermColorToRGBA (-3) CM_P16 = none ∧ xtermColorToRGBA 99 CM_P16 = none ∧
      xtermColorToRGBA (-3) CM_P256 = none :=
  ⟨(resolve_out_of_range_none (-3)).1 (Or.inl (by norm_num)),
   (resolve_out_of_range_none 99).1 (Or.inr (by norm_num)),
   (resolve_out_of_range_none (-3)).2 (by norm_num)⟩

/-- C5: for every key event, the input router emits exactly the bytes of
the claim's precedence table — Ctrl+C, Ctrl+D, Return, Backspace, the four
arrows, Escape, then the raw sequence when neither ctrl nor meta is held,
and otherwise no bytes at all. -/
theorem sendKey_matches_precedence_table (k : KeyEvent) :
    sendKeyBytes k = inputRouterSpec k := by
  obtain ⟨name, seq, ctrl, meta⟩ := k
  simp only [sendKeyBytes, inputRouterSpec]
  by_cases h1 : ctrl = true ∧ name = "c"
  · simp only [if_pos h1]
  simp only [if_neg h1]
  by_cases h2 : ctrl = true ∧ name = "d"
  · simp only [if_pos h2]
  simp only [if_neg h2]
  by_cases h3 : name = "return"
  · simp only [if_pos h3]
  simp only [if_neg h3]
  by_cases h4 : name = "backspace"
  · simp only [if_pos h4]
  simp only [if_neg h4]
  by_cases h5 : name = "up"
  · simp only [if_pos h5]
  simp only [if_neg h5]
  by_cases h6 : name = "down"
  · simp only [if_pos h6]
  simp only [if_neg h6]
  by_cases h7 : name = "left"
  · have h8 : ¬ name = "right" := by
      subst h7
      decide
    simp only [if_pos h7, if_neg h8]
  by_cases h8 : name = "right"
  · simp only [if_neg h7, if_pos h8]
  simp only [if_neg h7, if_neg h8]
  by_cases h9 : name = "escape"
  · simp only [if_pos h9]
  simp only [if_neg h9]
  cases seq with
  | none => simp
  | some s =>
    by_cases hs : s = "" <;> simp only [hs] <;> split_ifs <;> simp_all

/-- C8: for every key event sent after the child process has exited (the
handle has been cleared by the exit handler), the write is a silent no-op:
no bytes are written, no error is raised, and the state is unchanged. -/
theorem writeInput_dead_handle_noop (h : ProcessHandle) (k : KeyEvent) :
    writeInput (onExitClearHandle h) k = (none, "") := rfl

theorem step_onExit_retry (cfg : PtyConfig) (s : HelperState) (t : Nat)
    (code : Int) (fresh : String) (hlive : s.exited = none) (hcode : code ≠ 0)
    (ht : t - s.startTime < 2000) (hnr : s.hasRetried = false)
    (hid : jsTruthy (originalSessionId cfg) = true)
    (hsig : hasSignature s.outputBuffer = true) :
    step cfg s (.onExit t code fresh) = retryState cfg s t fresh := by
  simp [step, hlive, hcode, ht, hnr, hid, hsig, retryState]

theorem step_onExit_forward (cfg : PtyConfig) (s : HelperState) (t : Nat)
    (code : Int) (fresh : String) (hlive : s.exited = none)
    (h : ¬ (code ≠ 0 ∧ t - s.startTime < 2000 ∧ s.hasRetried = false ∧
      jsTruthy (originalSessionId cfg) = true ∧ hasSignature s.outputBuffer = true)) :
    step cfg s (.onExit t code fresh) = { s with exited := some code } := by
  simp only [step, hlive, Option.isSome_none, Bool.false_eq_true, if_false]
  by_cases hout : code ≠ 0 ∧ t - s.startTime < 2000 ∧ s.hasRetried = false ∧
      jsTruthy (originalSessionId cfg) = true
  · rw [if_pos hout]
    have hsig : ¬ hasSignature s.outputBuffer = true := by
      intro hs
      exact h ⟨hout.1, hout.2.1, hout.2.2.1, hout.2.2.2, hs⟩
    rw [if_neg hsig]
  · rw [if_neg hout]

/-- C1: for a resume-mode session (a `--resume` argument carrying a truthy
session id), an exit with non-zero status within the 2-second window whose
buffered output carries the failure signature, before any retry, makes the
helper write the `{oldSessionId, newSessionId, cwd, timestamp}` marker,
restart the child with exactly the new-session arguments
`["--session-id", fresh]`, and reset the window start and the buffer
(`retryState`); in every other exit case the exit status is forwarded and
no restart occurs. -/
theorem resume_retry_protocol (cfg : PtyConfig) (s : HelperState) (t : Nat)
    (code : Int) (fresh : String) (_hres : resumeIndex cfg ≥ 0)
    (hid : jsTruthy (originalSessionId cfg) = true) (hlive : s.exited = none) :
    (code ≠ 0 ∧ t - s.startTime < 2000 ∧ s.hasRetried = false ∧
        hasSignature s.outputBuffer = true →
      step cfg s (.onExit t code fresh) = retryState cfg s t fresh) ∧
    (¬ (code ≠ 0 ∧ t - s.startTime < 2000 ∧ s.hasRetried = false ∧
        hasSignature s.outputBuffer = true) →
      step cfg s (.onExit t code fresh) = { s with exited := some code }) := by
  constructor
  · intro h
    exact step_onExit_retry cfg s t code fresh hlive h.1 h.2.1 h.2.2.1 hid h.2.2.2
  · intro h
    apply step_onExit_forward cfg s t code fresh hlive
    intro hall
    exact h ⟨hall.1, hall.2.1, hall.2.2.1, hall.2.2.2.2⟩

/-- Witness for C1: the concrete failing resume session retries. -/
theorem resume_retry_protocol_witness :
    step cfgResume sFail (.onExit 500 1 "new-id") = retryState cfgResume sFail 500 "new-id" :=
  (resume_retry_protocol cfgResume sFail 500 1 "new-id" (by decide) (by decide) rfl).1
    ⟨by decide, by decide, rfl, by decide⟩

theorem retryInv_init (cfg : PtyConfig) : RetryInv (initState cfg) := by
  refine ⟨fun _ => ⟨rfl, rfl⟩, by simp [initState], by simp [initState]⟩

theorem retryInv_step (cfg : PtyConfig) (s : HelperState) (e : PtyEvent)
    (h : RetryInv s) : RetryInv (step cfg s e) := by
  obtain ⟨h0, h1, h2⟩ := h
  cases e with
  | onData t d =>
    simp only [step]
    split_ifs <;> exact ⟨h0, h1, h2⟩
  | onExit t code fresh =>
    simp only [step]
    split_ifs with hdead hcond hsig
    · exact ⟨h0, h1, h2⟩
    · obtain ⟨hr0, hm0⟩ := h0 hcond.2.2.1
      refine ⟨fun hf => by simp at hf, ?_, ?_⟩
      · simp only [hr0]
        omega
      · simp [hm0]
    · exact ⟨h0, h1, h2⟩
    · exact ⟨h0, h1, h2⟩

theorem retryInv_run (cfg : PtyConfig) (evs : List PtyEvent) : RetryInv (run cfg evs) := by
  suffices h : ∀ (l : List PtyEvent) (s : HelperState), RetryInv s →
      RetryInv (l.foldl (step cfg) s) from h evs (initState cfg) (retryInv_init cfg)
  intro l
  induction l with
  | nil => exact fun s hs => hs
  | cons e l ih => exact fun s hs => ih (step cfg s e) (retryInv_step cfg s e hs)

/-- C2: the retry protocol fires at most once per session lifetime — over
any event history at most one restart and at most one marker write occur,
and once a retry has happened any later exit (even a quick, non-zero exit
with the failure signature buffered) just forwards the exit status with no
further restart. -/
theorem retry_at_most_once (cfg : PtyConfig) :
    (∀ evs : List PtyEvent,
      (run cfg evs).restarts ≤ 1 ∧ (run cfg evs).markers.length ≤ 1) ∧
    (∀ (s : HelperState) (t : Nat) (code : Int) (fresh : String),
      s.hasRetried = true → s.exited = none →
      step cfg s (.onExit t code fresh) = { s with exited := some code }) := by
  constructor
  · intro evs
    exact ⟨(retryInv_run cfg evs).2.1, (retryInv_run cfg evs).2.2⟩
  · intro s t code fresh hr hlive
    apply step_onExit_forward cfg s t code fresh hlive
    rintro ⟨-, -, hfalse, -⟩
    rw [hr] at hfalse
    exact absurd hfalse (by simp)

/-- Witness for C2: after a retry, a quick signature-bearing non-zero exit
is still just forwarded. -/
theorem retry_at_most_once_witness :
    step cfgResume sRetried (.onExit 100 1 "other-id") = { sRetried with exited := some 1 } :=
  (retry_at_most_once cfgResume).2 sRetried 100 1 "other-id" rfl rfl

/-- C3 counterexample: in a resume-mode session, a chunk buffered during
the detection window is never forwarded — after the window elapses without
the failure signature, the helper's stdout holds only the later chunk, not
the buffered one, refuting the claimed flush of buffered output at window
end. -/
theorem window_buffer_never_flushed_cex :
    (run cfgResume [.onData 100 "hello", .onData 2500 "world"]).stdout = ["world"] ∧
      "hello" ∉ (run cfgResume [.onData 100 "hello", .onData 2500 "world"]).stdout := by
  decide

/-- C3 (amended): in a resume-mode session before any retry, output
arriving inside the 2-second window is suppressed — appended to the
detection buffer with nothing written to stdout — and it is never released
later; once the window has elapsed, each chunk passes straight through to
stdout. -/
theorem window_output_suppressed (cfg : PtyConfig) (s : HelperState) (t : Nat)
    (d : String) (hres : resumeIndex cfg ≥ 0)
    (hid : jsTruthy (originalSessionId cfg) = true)
    (hnr : s.hasRetried = false) (hlive : s.exited = none) :
    (t - s.startTime < 2000 →
      step cfg s (.onData t d) = { s with outputBuffer := s.outputBuffer ++ d }) ∧
    (2000 ≤ t - s.startTime →
      step cfg s (.onData t d) = { s with stdout := s.stdout ++ [d] }) := by
  constructor
  · intro hw
    simp [step, hlive, hw, hnr, hid, hres]
  · intro hw
    have hnw : ¬ (t - s.startTime < 2000) := by omega
    simp [step, hlive, hnw]

/-- Witness for C3 (amended): the concrete in-window chunk is buffered,
not written. -/
theorem window_output_suppressed_witness :
    step cfgResume (initState cfgResume) (.onData 100 "hello") =
      { initState cfgResume with outputBuffer := "hello" } :=
  (window_output_suppressed cfgResume (initState cfgResume) 100 "hello"
    (by decide) (by decide) rfl rfl).1 (by decide)

/-- C6: when the retry protocol restarts the child, the new argument list
is exactly `["--session-id", fresh]` — every original argument other than
(possibly) the literal `--session-id` flag or the fresh id itself is
absent from the restarted child's arguments. -/
theorem restart_args_exact (cfg : PtyConfig) (s : HelperState) (t : Nat)
    (code : Int) (fresh : String) (hlive : s.exited = none) (hcode : code ≠ 0)
    (ht : t - s.startTime < 2000) (hnr : s.hasRetried = false)
    (hid : jsTruthy (originalSessionId cfg) = true)
    (hsig : hasSignature s.outputBuffer = true) :
    (step cfg s (.onExit t code fresh)).currentArgs = ["--session-id", fresh] ∧
    (∀ a ∈ cfg.cmdArgs, a ≠ "--session-id" → a ≠ fresh →
      a ∉ (step cfg s (.onExit t code fresh)).currentArgs) := by
  rw [step_onExit_retry cfg s t code fresh hlive hcode ht hnr hid hsig]
  refine ⟨rfl, ?_⟩
  intro a _ h1 h2
  simp only [retryState, List.mem_cons, List.mem_singleton, List.not_mem_nil]
  rintro (h | h | h)
  · exact h1 h
  · exact h2 h
  · exact h

/-- Witness for C6: the extra `--verbose` flag is dropped on restart. -/
theorem restart_args_exact_witness :
    (step cfgVerbose sVerboseFail (.onExit 300 1 "n1")).currentArgs = ["--session-id", "n1"] ∧
      "--verbose" ∉ (step cfgVerbose sVerboseFail (.onExit 300 1 "n1")).currentArgs :=
  ⟨(restart_args_exact cfgVerbose sVerboseFail 300 1 "n1" rfl (by decide) (by decide)
      rfl (by decide) (by decide)).1,
   (restart_args_exact cfgVerbose sVerboseFail 300 1 "n1" rfl (by decide) (by decide)
      rfl (by decide) (by decide)).2 "--verbose" (by decide) (by decide) (by decide)⟩

/-- C7: a burst of `schedule()` calls within one 16 ms debounce window —
each call no earlier than the previous and arriving before the previous
timer's deadline — arms at most one timer at a time (each call replaces
the pending timer by one due 16 ms later) and yields exactly one render
invocation, 16 ms after the last call of the burst, reading the buffer
state current at that fire time. -/
theorem debounce_single_fire (c : Nat) (cs : List Nat)
    (hburst : List.Chain (fun a b => a ≤ b ∧ b < a + 16) c cs) :
    (∀ (p : Option Nat) (t : Nat), scheduleStep p t = some (t + 16)) ∧
    debounceFires (c :: cs) = [(c :: cs).getLast (List.cons_ne_nil c cs) + 16] ∧
    (∀ bufAt : Nat → Nat, (debounceFires (c :: cs)).map bufAt =
      [bufAt ((c :: cs).getLast (List.cons_ne_nil c cs) + 16)]) := by
  have hmain : debounceFires (c :: cs) =
      [(c :: cs).getLast (List.cons_ne_nil c cs) + 16] := by
    induction cs generalizing c with
    | nil => rfl
    | cons c2 rest ih =>
      rw [List.chain_cons] at hburst
      have hlt : c2 < c + 16 := hburst.1.2
      have htail := ih c2 hburst.2
      simp only [debounceFires, if_pos hlt]
      rw [htail, List.getLast_cons (List.cons_ne_nil c2 rest)]
  exact ⟨fun _ _ => rfl, hmain, fun bufAt => by rw [hmain]; rfl⟩

/-- Witness for C7: ten calls within 5 ms produce exactly one fire, 16 ms
after the last call. -/
theorem debounce_single_fire_witness :
    debounceFires [0, 1, 1, 2, 2, 3, 3, 4, 4, 5] = [21] :=
  (debounce_single_fire 0 [1, 1, 2, 2, 3, 3, 4, 4, 5]
    (by simp [List.chain_cons])).2.1

/-- C4 counterexample: on the concrete two-row screen the output is
`"a"`, `"\n"`, `"b"`, and the first two adjacent runs share the identical
style triple `(none, none, none)`, so the extraction output is not
adjacent-style-distinct as claimed. -/
theorem adjacent_runs_share_style_cex :
    extractStyledText demoScreen 1 2 =
      [{ text := "a", fg := none, bg := none, attributes := none },
       { text := "\n", fg := none, bg := none, attributes := none },
       { text := "b", fg := none, bg := none, attributes := none }] ∧
    ¬ List.Chain' (fun a b => styleOf a ≠ styleOf b) (extractStyledText demoScreen 1 2) := by
  have h : extractStyledText demoScreen 1 2 =
      [{ text := "a", fg := none, bg := none, attributes := none },
       { text := "\n", fg := none, bg := none, attributes := none },
       { text := "b", fg := none, bg := none, attributes := none }] := by decide
  refine ⟨h, ?_⟩
  intro hch
  rw [h] at hch
  exact (List.chain'_cons.mp hch).1 rfl

theorem cellChar_ne_empty (c : Cell) : cellChar c ≠ "" := by
  unfold cellChar
  split_ifs with h
  · decide
  · exact h

theorem append_ne_empty_left {s t : String} (h : s ≠ "") : s ++ t ≠ "" := by
  intro he
  apply h
  have hd : s.data ++ t.data = [] := by
    have hc := congrArg String.data he
    simpa using hc
  obtain ⟨h1, -⟩ := List.append_eq_nil.mp hd
  cases s with
  | mk d =>
    simp only [String.data] at h1
    rw [show (⟨d⟩ : String) = ⟨[]⟩ from by rw [h1]]

theorem stAttr_injEq {a b : Nat} (h : stAttr a = stAttr b) : a = b := by
  unfold stAttr at h
  split_ifs at h <;> simp_all

theorem rowGo_head_style (cells : List (Option Cell)) :
    ∀ (text : String) (fg bg : Option RGBA) (attrs : Nat), text ≠ "" →
      ∀ c ∈ (rowGo cells text fg bg attrs).head?, styleOf c = (fg, bg, stAttr attrs) := by
  induction cells with
  | nil =>
    intro text fg bg attrs ht c hc
    simp only [rowGo, if_neg ht, List.head?_cons, Option.mem_def, Option.some.injEq] at hc
    rw [← hc]
    rfl
  | cons oc rest ih =>
    intro text fg bg attrs ht c hc
    cases oc with
    | none => exact ih text fg bg attrs ht c (by simpa [rowGo] using hc)
    | some cell =>
      by_cases hw : cell.width = 0
      · simp only [rowGo, if_pos hw] at hc
        exact ih text fg bg attrs ht c hc
      · by_cases hch : (cellFg cell ≠ fg ∨ cellBg cell ≠ bg ∨ cellAttrs cell ≠ attrs) ∧
            text ≠ ""
        · simp only [rowGo, if_neg hw, if_pos hch, List.head?_cons, Option.mem_def,
            Option.some.injEq] at hc
          rw [← hc]
          rfl
        · simp only [rowGo, if_neg hw, if_neg hch] at hc
          have hnc : ¬ (cellFg cell ≠ fg ∨ cellBg cell ≠ bg ∨ cellAttrs cell ≠ attrs) :=
            fun hx => hch ⟨hx, ht⟩
          push_neg at hnc
          obtain ⟨e1, e2, e3⟩ := hnc
          have hrec := ih (text ++ cellChar cell) (cellFg cell) (cellBg cell)
            (cellAttrs cell) (append_ne_empty_left ht) c hc
          rw [hrec, e1, e2, e3]

theorem rowGo_chain (cells : List (Option Cell)) :
    ∀ (text : String) (fg bg : Option RGBA) (attrs : Nat),
      List.Chain' (fun x y => styleOf x ≠ styleOf y) (rowGo cells text fg bg attrs) := by
  induction cells with
  | nil =>
    intro text fg bg attrs
    simp only [rowGo]
    split_ifs <;> simp
  | cons oc rest ih =>
    intro text fg bg attrs
    cases oc with
    | none => simpa [rowGo] using ih text fg bg attrs
    | some cell =>
      by_cases hw : cell.width = 0
      · simpa [rowGo, if_pos hw] using ih text fg bg attrs
      · by_cases hch : (cellFg cell ≠ fg ∨ cellBg cell ≠ bg ∨ cellAttrs cell ≠ attrs) ∧
            text ≠ ""
        · simp only [rowGo, if_neg hw, if_pos hch]
          refine List.chain'_cons'.mpr ⟨?_, ih _ _ _ _⟩
          intro y hy
          have hys := rowGo_head_style rest (cellChar cell) (cellFg cell) (cellBg cell)
            (cellAttrs cell) (cellChar_ne_empty cell) y hy
          have hms : styleOf (mkChunk text fg bg attrs) = (fg, bg, stAttr attrs) := rfl
          rw [hms, hys]
          intro heq
          rw [Prod.ext_iff] at heq
          obtain ⟨q1, q23⟩ := heq
          rw [Prod.ext_iff] at q23
          obtain ⟨q2, q3⟩ := q23
          rcases hch.1 with hne | hne | hne
          · exact hne q1.symm
          · exact hne q2.symm
          · exact hne (stAttr_injEq q3.symm)
        · simpa [rowGo, if_neg hw, if_neg hch] using ih _ _ _ _

theorem rowGo_chain_sep (cells : List (Option Cell)) (text : String)
    (fg bg : Option RGBA) (attrs : Nat) :
    List.Chain' sepOk (rowGo cells text fg bg attrs) :=
  (rowGo_chain cells text fg bg attrs).imp fun _ _ h => Or.inr (Or.inr h)

theorem extractRows_chain (b : Screen) (cols rows : Nat) :
    ∀ ys : List Nat, List.Pairwise (fun a b => a < b) ys → (∀ z ∈ ys, z < rows) →
      List.Chain' sepOk (extractRows b cols rows ys) := by
  intro ys
  induction ys with
  | nil =>
    intro _ _
    simp [extractRows]
  | cons y ys ih =>
    intro hpw hbnd
    have hhd := (List.pairwise_cons.mp hpw).1
    have hpwt := (List.pairwise_cons.mp hpw).2
    have hbt : ∀ z ∈ ys, z < rows := fun z hz => hbnd z (List.mem_cons_of_mem y hz)
    have hrest := ih hpwt hbt
    cases hline : getLine b y with
    | none => simpa [extractRows, hline] using hrest
    | some line =>
      simp only [extractRows, hline]
      by_cases hy : y < rows - 1
      · rw [if_pos hy]
        apply List.Chain'.append _ hrest
        · intro x hx _z _hz
          rw [List.getLast?_concat] at hx
          simp only [Option.mem_def, Option.some.injEq] at hx
          rw [← hx]
          exact Or.inl rfl
        · apply List.Chain'.append (rowGo_chain_sep _ _ _ _ _) (by simp)
          intro x hx z hz
          simp only [List.head?_cons, Option.mem_def, Option.some.injEq] at hz
          rw [← hz]
          exact Or.inr (Or.inl rfl)
      · rw [if_neg hy]
        have hylt := hbnd y (List.mem_cons_self y ys)
        have hys : ys = [] := by
          cases ys with
          | nil => rfl
          | cons z zs =>
            have hz := hbt z (List.mem_cons_self z zs)
            have hyz := hhd z (List.mem_cons_self z zs)
            omega
        subst hys
        simp only [extractRows, List.append_nil]
        exact rowGo_chain_sep _ _ _ _ _

/-- C4 (amended): extraction output is maximally merged up to row
boundaries — within any single row the produced runs are pairwise
adjacent-distinct in style (a run is split inside a row only at a style
change), and in the full output any two adjacent runs either differ in
their (foreground, background, attributes) triple or one of them is the
unstyled `"\n"` separator emitted between rows. -/
theorem extract_maximal_up_to_newlines (b : Screen) (cols rows : Nat) :
    List.Chain' sepOk (extractStyledText b cols rows) ∧
    (∀ line : Line, List.Chain' (fun x y => styleOf x ≠ styleOf y)
      (rowGo (rowCells line cols) "" none none 0)) :=
  by
  constructor
  · simp only [extractStyledText]
    obtain ⟨t, ht⟩ :=
      List.rdropWhile_prefix isTrailingBlank (extractRows b cols rows (List.range rows))
    have hfull := extractRows_chain b cols rows (List.range rows)
      (List.pairwise_lt_range rows) fun _z hz => List.mem_range.mp hz
    rw [← ht] at hfull
    exact hfull.left_of_append
  · exact fun line => rowGo_chain (rowCells line cols) "" none none 0

end Multicode

